import Mathlib

/-!
# WhatsApp-Music-Bot — verification of the core pipeline

A shallow embedding, in Lean 4, of the pure logic of the WhatsApp-Music-Bot
repository (`src/queue.js`, `src/downloader.js`, `src/index.js`, `src/utils.js`)
together with proofs of the behavioural properties claimed in its
specification.

Modelling conventions:
* JavaScript numbers that are in practice non-negative integers (durations in
  seconds, file sizes in bytes, bitrates, CRF values, queue positions, clock
  instants in milliseconds) are modelled as `Nat`.
* A falsy-or-default JavaScript pattern `Number(x) || d` is modelled by
  treating the value `0` as "absent" and substituting the default.
* Strings are modelled as `List Char`; `String.prototype.toLowerCase`,
  `trim` and the character classes `[a-z]`, `\d`, `\s` of the regular
  expressions used by the code are modelled at ASCII granularity, which
  covers every string the relevant code paths distinguish.
* Fallible operations become `Except`/`Option` values; external effects
  (spawning ffmpeg, `fs.stat`, sending a message) become explicit outcome
  oracles, and the file system visible to `downloadVideo` becomes an explicit
  record threaded through the control flow, with `try/finally` translated to
  an explicit continuation.
* The single-threaded JavaScript event loop is modelled by a small-step
  transition system whose atomic steps are the synchronous segments of the
  code between `await` points.
-/

namespace MusicBot

/-- The two media kinds handled by the bot (`MEDIA_AUDIO` / `MEDIA_VIDEO`
in `src/index.js`). -/
inductive MediaType where
  | audio
  | video
deriving DecidableEq, Repr

/-- Error codes carried by `DownloadError` in `src/downloader.js`. -/
inductive DownloadErrorCode where
  | YTDLP_NOT_FOUND
  | YTDLP_ERROR
  | YTDLP_AUTH_REQUIRED
  | YTDLP_CHALLENGE_FAILED
  | YTDLP_FORMAT_UNAVAILABLE
  | COOKIES_FILE_NOT_FOUND
  | FFMPEG_NOT_FOUND
  | FFMPEG_ERROR
  | FILE_TOO_LARGE
  | OUTPUT_NOT_FOUND
deriving DecidableEq, Repr

/-- Error codes carried by `YoutubeError` in `src/youtube.js` that the
duration policy of `src/index.js` can raise. -/
inductive YoutubeErrorCode where
  | INVALID_DURATION
  | AUDIO_DURATION_LIMIT
  | VIDEO_DURATION_LIMIT
deriving DecidableEq, Repr

/-- `clampNumber(value, min, max) = Math.max(min, Math.min(max, value))`
(`src/downloader.js`). -/
def clampNumber (value lo hi : Nat) : Nat :=
  Nat.max lo (Nat.min hi value)

/-- `Number(x) || d`: a JavaScript falsy-default; `0` models an absent or
falsy numeric option. -/
def jsOrDefault (value fallback : Nat) : Nat :=
  if value = 0 then fallback else value

/-- A video compression profile: target height, H.264 CRF and audio bitrate
(the record literals produced in `buildVideoCompressionProfile`,
`src/downloader.js`). -/
structure CompressionProfile where
  maxHeight : Nat
  crf : Nat
  audioBitrateKbps : Nat
deriving DecidableEq, Repr

/-- The three video-compression options read from `options` by
`buildVideoCompressionProfile`; `0` encodes a falsy/absent option. -/
structure VideoCompressionOptions where
  videoMaxHeight : Nat
  videoCrf : Nat
  videoAudioBitrateKbps : Nat
deriving DecidableEq, Repr

/-- `buildVideoCompressionProfile(durationSeconds, options)`
(`src/downloader.js`, lines 211–246): clamps the configured bounds, then
tightens them by duration tier (≥ 7200 s, ≥ 3600 s, ≥ 1800 s). -/
def buildVideoCompressionProfile (durationSeconds : Nat)
    (options : VideoCompressionOptions) : CompressionProfile :=
  let baseHeight := clampNumber (jsOrDefault options.videoMaxHeight 480) 240 720
  let baseCrf := clampNumber (jsOrDefault options.videoCrf 30) 18 40
  let baseAudioBitrate :=
    clampNumber (jsOrDefault options.videoAudioBitrateKbps 64) 32 192
  let duration := durationSeconds
  if 7200 ≤ duration then
    { maxHeight := Nat.min baseHeight 240
      crf := clampNumber (baseCrf + 2) 18 40
      audioBitrateKbps := Nat.min baseAudioBitrate 48 }
  else if 3600 ≤ duration then
    { maxHeight := Nat.min baseHeight 360
      crf := clampNumber (baseCrf + 1) 18 40
      audioBitrateKbps := Nat.min baseAudioBitrate 56 }
  else if 1800 ≤ duration then
    { maxHeight := Nat.min baseHeight 480
      crf := clampNumber (baseCrf + 1) 18 40
      audioBitrateKbps := Nat.min baseAudioBitrate 64 }
  else
    { maxHeight := baseHeight
      crf := baseCrf
      audioBitrateKbps := baseAudioBitrate }

/-- `buildFallbackVideoCompressionProfile(profile)` (`src/downloader.js`,
lines 248–261): a strictly more aggressive profile, or `none` when the
candidate fallback coincides with the input field by field. -/
def buildFallbackVideoCompressionProfile (profile : CompressionProfile) :
    Option CompressionProfile :=
  let fallback : CompressionProfile :=
    { maxHeight := Nat.max 240 (Nat.min profile.maxHeight 360)
      crf := clampNumber (profile.crf + 2) 18 40
      audioBitrateKbps := Nat.max 32 (Nat.min profile.audioBitrateKbps 48) }
  if fallback = profile then none else some fallback

lemma le_clampNumber (value lo hi : Nat) : lo ≤ clampNumber value lo hi :=
  Nat.le_max_left _ _

lemma clampNumber_le (value lo hi : Nat) (h : lo ≤ hi) :
    clampNumber value lo hi ≤ hi :=
  Nat.max_le.mpr ⟨h, Nat.min_le_left _ _⟩

/-- Every profile produced by `buildVideoCompressionProfile` keeps its fields
inside the clamped ranges relevant to the fallback computation. -/
lemma buildVideoCompressionProfile_range (durationSeconds : Nat)
    (options : VideoCompressionOptions) :
    240 ≤ (buildVideoCompressionProfile durationSeconds options).maxHeight ∧
    (buildVideoCompressionProfile durationSeconds options).crf ≤ 40 ∧
    32 ≤ (buildVideoCompressionProfile durationSeconds options).audioBitrateKbps := by
  have hH := le_clampNumber (jsOrDefault options.videoMaxHeight 480) 240 720
  have hC := clampNumber_le (jsOrDefault options.videoCrf 30) 18 40 (by omega)
  have hA := le_clampNumber (jsOrDefault options.videoAudioBitrateKbps 64) 32 192
  have hC2 := clampNumber_le
    (clampNumber (jsOrDefault options.videoCrf 30) 18 40 + 2) 18 40 (by omega)
  have hC1 := clampNumber_le
    (clampNumber (jsOrDefault options.videoCrf 30) 18 40 + 1) 18 40 (by omega)
  simp only [buildVideoCompressionProfile]
  split_ifs <;> refine ⟨?_, ?_, ?_⟩ <;> dsimp only <;>
    (try simp only [Nat.le_min]) <;> omega

/-- Any fallback profile actually returned for an in-range input profile is
at most as tall, at least as compressed, at most as loud, and distinct. -/
lemma buildFallbackVideoCompressionProfile_mono (p fb : CompressionProfile)
    (hH : 240 ≤ p.maxHeight) (hC : p.crf ≤ 40) (hA : 32 ≤ p.audioBitrateKbps)
    (h : buildFallbackVideoCompressionProfile p = some fb) :
    fb.maxHeight ≤ p.maxHeight ∧ p.crf ≤ fb.crf ∧
    fb.audioBitrateKbps ≤ p.audioBitrateKbps ∧ fb ≠ p := by
  simp only [buildFallbackVideoCompressionProfile] at h
  split_ifs at h with heq
  injection h with h
  subst h
  refine ⟨Nat.max_le.mpr ⟨hH, Nat.min_le_left _ _⟩, ?_,
    Nat.max_le.mpr ⟨hA, Nat.min_le_left _ _⟩, heq⟩
  have hmin : p.crf ≤ Nat.min 40 (p.crf + 2) := Nat.le_min.mpr ⟨hC, by omega⟩
  exact le_trans hmin (Nat.le_max_right _ _)

/-- The slice of the file system that `downloadVideo` (`src/downloader.js`,
lines 559–608) manipulates after the raw download succeeded: whether the raw
file and the converted (`…-wa.mp4`) file currently exist, plus a count of
ffmpeg invocations made so far. -/
structure VideoFs where
  rawExists : Bool
  convertedExists : Bool
  ffmpegRuns : Nat
deriving DecidableEq, Repr

/-- Outcome oracles for the external effects of the transcode phase of
`downloadVideo`: the result of each potential `runFfmpeg` invocation
(`none` = exit code 0) and of each potential `fs.promises.stat` call. -/
structure TranscodeEnv where
  firstTranscode : Option DownloadErrorCode
  firstStat : Except DownloadErrorCode Nat
  secondTranscode : Option DownloadErrorCode
  secondStat : Except DownloadErrorCode Nat

/-- The `try` block of `downloadVideo` after the raw download (lines
579–604): first transcode, size check, optional single fallback re-transcode
from the same raw source, final size check.  Returns the thrown error or the
final file size, together with the resulting file-system slice. -/
def downloadVideoTranscodeBody (env : TranscodeEnv) (maxFileSize : Nat)
    (profile : CompressionProfile) (fs0 : VideoFs) :
    Except DownloadErrorCode Nat × VideoFs :=
  -- `await runFfmpeg(rawResult.filePath, convertedPath, ffmpegLocation, compressionProfile)`
  let fs1 : VideoFs := { fs0 with ffmpegRuns := fs0.ffmpegRuns + 1 }
  match env.firstTranscode with
  | some e => (.error e, fs1)
  | none =>
    let fs2 : VideoFs := { fs1 with convertedExists := true }
    -- `let stats = await fs.promises.stat(convertedPath)`
    match env.firstStat with
    | .error e => (.error e, fs2)
    | .ok size1 =>
      -- `if (stats.size > options.maxFileSize) { ... }` with the fallback retry
      let retried : Except DownloadErrorCode Nat × VideoFs :=
        if maxFileSize < size1 then
          match buildFallbackVideoCompressionProfile profile with
          | some _fallbackProfile =>
            -- `await safeUnlink(convertedPath)` then the second transcode + stat
            let fs3 : VideoFs := { fs2 with convertedExists := false }
            let fs4 : VideoFs := { fs3 with ffmpegRuns := fs3.ffmpegRuns + 1 }
            match env.secondTranscode with
            | some e => (.error e, fs4)
            | none =>
              let fs5 : VideoFs := { fs4 with convertedExists := true }
              match env.secondStat with
              | .error e => (.error e, fs5)
              | .ok size2 => (.ok size2, fs5)
          | none => (.ok size1, fs2)
        else (.ok size1, fs2)
      match retried with
      | (.error e, fs') => (.error e, fs')
      | (.ok size, fs') =>
        -- `if (stats.size > options.maxFileSize) { await safeUnlink(...); throw ... }`
        if maxFileSize < size then
          (.error .FILE_TOO_LARGE, { fs' with convertedExists := false })
        else (.ok size, fs')

/-- The transcode phase of `downloadVideo` including its `finally` clause
`await safeUnlink(rawResult.filePath)`, which runs on every exit of the
`try` block above. -/
def downloadVideoTranscodePhase (env : TranscodeEnv) (maxFileSize : Nat)
    (profile : CompressionProfile) (fs0 : VideoFs) :
    Except DownloadErrorCode Nat × VideoFs :=
  let step := downloadVideoTranscodeBody env maxFileSize profile fs0
  (step.1, { step.2 with rawExists := false })

/-- C1: for every profile produced by `buildVideoCompressionProfile`, a
fallback profile, when one is produced, has height ≤, CRF ≥ and audio
bitrate ≤ the original and differs from it; and when no fallback is
produced, a first transcode output over the ceiling makes `downloadVideo`
fail with `FILE_TOO_LARGE` after exactly one ffmpeg run (no second
transcode). -/
theorem compression_fallback_correct (durationSeconds : Nat)
    (options : VideoCompressionOptions) :
    (∀ fb, buildFallbackVideoCompressionProfile
        (buildVideoCompressionProfile durationSeconds options) = some fb →
      fb.maxHeight ≤ (buildVideoCompressionProfile durationSeconds options).maxHeight ∧
      (buildVideoCompressionProfile durationSeconds options).crf ≤ fb.crf ∧
      fb.audioBitrateKbps ≤
        (buildVideoCompressionProfile durationSeconds options).audioBitrateKbps ∧
      fb ≠ buildVideoCompressionProfile durationSeconds options) ∧
    (buildFallbackVideoCompressionProfile
        (buildVideoCompressionProfile durationSeconds options) = none →
      ∀ (env : TranscodeEnv) (maxFileSize size1 : Nat),
        env.firstTranscode = none → env.firstStat = .ok size1 →
        maxFileSize < size1 →
        downloadVideoTranscodePhase env maxFileSize
            (buildVideoCompressionProfile durationSeconds options)
            ⟨true, false, 0⟩ =
          (.error .FILE_TOO_LARGE, ⟨false, false, 1⟩)) := by
  obtain ⟨hH, hC, hA⟩ := buildVideoCompressionProfile_range durationSeconds options
  constructor
  · intro fb hfb
    exact buildFallbackVideoCompressionProfile_mono _ fb hH hC hA hfb
  · intro hnone env maxFileSize size1 h1 h2 h3
    simp only [downloadVideoTranscodePhase, downloadVideoTranscodeBody, h1, h2,
      hnone, if_pos h3]

/-- Witness for C1: with default options the fallback exists, is smaller in
height/bitrate, larger in CRF and distinct; with options already at the
fallback floor no fallback exists and `downloadVideo` fails with
`FILE_TOO_LARGE` after a single transcode. -/
theorem compression_fallback_correct_witness :
    (buildFallbackVideoCompressionProfile
        (buildVideoCompressionProfile 0 ⟨0, 0, 0⟩) =
          some ⟨360, 32, 48⟩ ∧
      (⟨360, 32, 48⟩ : CompressionProfile).maxHeight ≤
        (buildVideoCompressionProfile 0 ⟨0, 0, 0⟩).maxHeight ∧
      (buildVideoCompressionProfile 0 ⟨0, 0, 0⟩).crf ≤
        (⟨360, 32, 48⟩ : CompressionProfile).crf ∧
      (⟨360, 32, 48⟩ : CompressionProfile).audioBitrateKbps ≤
        (buildVideoCompressionProfile 0 ⟨0, 0, 0⟩).audioBitrateKbps ∧
      (⟨360, 32, 48⟩ : CompressionProfile) ≠
        buildVideoCompressionProfile 0 ⟨0, 0, 0⟩) ∧
    (buildFallbackVideoCompressionProfile
        (buildVideoCompressionProfile 0 ⟨300, 40, 40⟩) = none ∧
      downloadVideoTranscodePhase ⟨none, .ok 11, none, .ok 0⟩ 10
          (buildVideoCompressionProfile 0 ⟨300, 40, 40⟩) ⟨true, false, 0⟩ =
        (.error .FILE_TOO_LARGE, ⟨false, false, 1⟩)) :=
  ⟨⟨by decide, (compression_fallback_correct 0 ⟨0, 0, 0⟩).1 ⟨360, 32, 48⟩ (by decide)⟩,
   ⟨by decide, (compression_fallback_correct 0 ⟨300, 40, 40⟩).2 (by decide)
      ⟨none, .ok 11, none, .ok 0⟩ 10 11 rfl rfl (by decide)⟩⟩

/-- C6: once the raw (pre-transcode) file exists, every exit path of the
transcode phase of `downloadVideo` — success, fallback retry, ffmpeg
failure, stat failure, or size-limit failure — leaves the raw file deleted
(the `finally` clause always runs `safeUnlink` on it). -/
theorem downloadVideo_raw_file_always_deleted (env : TranscodeEnv)
    (maxFileSize : Nat) (profile : CompressionProfile) (fs0 : VideoFs) :
    ((downloadVideoTranscodePhase env maxFileSize profile fs0).2).rawExists =
      false :=
  rfl

/-! ## Job queue (`src/queue.js`)

`DownloadQueue` runs on the single-threaded JavaScript event loop.  The
state below records the queue array `items` (job identifiers, head first),
the `running` flag, the set of jobs currently being awaited inside the
`process` loop (`executing`), the identifiers whose completion handles have
already settled, in settlement order and tagged with `true` for resolve /
`false` for reject (`settled`), and the identifiers in order of `add` calls
(`enqueued`).  Each transition is one synchronous segment of the code
between `await` points:

* `queueStep` for `add(task)`: pushes the job, and — because `process()`
  runs synchronously up to its first `await` — when `running` was `false`
  it flips it and starts executing the head task;
* `queueSettle` for the completion of the awaited task: `resolveTask` /
  `rejectTask` settles the handle, `finally` shifts the head, and the loop
  either synchronously starts the next head task or clears `running`. -/

/-- Event-loop visible state of a `DownloadQueue` instance. -/
structure QueueState where
  items : List Nat
  running : Bool
  executing : List Nat
  settled : List (Nat × Bool)
  enqueued : List Nat
  nextId : Nat
deriving DecidableEq, Repr

/-- A fresh `new DownloadQueue()`. -/
def initQueue : QueueState :=
  { items := [], running := false, executing := [], settled := [],
    enqueued := [], nextId := 0 }

/-- `add(task)` (`src/queue.js`, lines 7–30) followed by the synchronous
portion of the `process()` call it makes: returns the value of
`this.items.push(...)` — the new length, i.e. the job's 1-based queue
position — together with the successor state. -/
def queueAdd (s : QueueState) : Nat × QueueState :=
  let id := s.nextId
  let items := s.items ++ [id]
  let position := items.length
  if s.running then
    (position,
      { items := items, running := true, executing := s.executing,
        settled := s.settled, enqueued := s.enqueued ++ [id],
        nextId := id + 1 })
  else
    -- `process()` sets `running`, reads `items[0]` and synchronously calls
    -- `current.task()`, which starts executing before the first `await`.
    (position,
      { items := items, running := true,
        executing := s.executing ++ [items.headI],
        settled := s.settled, enqueued := s.enqueued ++ [id],
        nextId := id + 1 })

/-- Completion of the task currently awaited by the `process` loop
(`src/queue.js`, lines 42–52): `resolveTask`/`rejectTask` settles the
completion handle (`outcome` records which), `finally` runs
`this.items.shift()`, and the loop synchronously starts the next head task
or, when the queue is empty, clears `running`.  When no task is being
awaited there is nothing to settle and the state is unchanged. -/
def queueSettle (s : QueueState) (outcome : Bool) : QueueState :=
  match s.executing with
  | [j] =>
    let settled := s.settled ++ [(j, outcome)]
    let items := s.items.tail
    if items.isEmpty then
      { items := items, running := false, executing := [],
        settled := settled, enqueued := s.enqueued, nextId := s.nextId }
    else
      { items := items, running := s.running, executing := [items.headI],
        settled := settled, enqueued := s.enqueued, nextId := s.nextId }
  | _ => s

/-- States reachable from a fresh queue by any interleaving of `add` calls
and task completions (either outcome). -/
inductive QueueReaches : QueueState → Prop where
  | init : QueueReaches initQueue
  | add {s : QueueState} : QueueReaches s → QueueReaches (queueAdd s).2
  | settle {s : QueueState} (outcome : Bool) :
      QueueReaches s → QueueReaches (queueSettle s outcome)

/-- The inductive invariant of the queue: settlements followed by the
remaining queue reproduce the enqueue order; at most one task executes; the
loop is dormant exactly on an empty queue; when the loop runs it is
awaiting precisely the head job. -/
def QueueInv (s : QueueState) : Prop :=
  s.settled.map Prod.fst ++ s.items = s.enqueued ∧
  s.executing.length ≤ 1 ∧
  (s.running = false → s.executing = [] ∧ s.items = []) ∧
  (s.running = true → ∃ j t, s.executing = [j] ∧ s.items = j :: t)

lemma queueInv_init : QueueInv initQueue := by
  refine ⟨rfl, by decide, fun _ => ⟨rfl, rfl⟩, fun h => by simp [initQueue] at h⟩

lemma queueInv_add {s : QueueState} (h : QueueInv s) :
    QueueInv (queueAdd s).2 := by
  obtain ⟨hfifo, hlen, hoff, hon⟩ := h
  unfold queueAdd
  by_cases hr : s.running
  · obtain ⟨j, t, hex, hit⟩ := hon hr
    rw [if_pos hr]
    refine ⟨?_, ?_, ?_, ?_⟩
    · simpa using congrArg (· ++ [s.nextId]) hfifo
    · simpa using hlen
    · intro hcontra; simp at hcontra
    · intro _
      exact ⟨j, t ++ [s.nextId], hex, by simp [hit]⟩
  · obtain ⟨hex, hit⟩ := hoff (by simpa using hr)
    rw [if_neg hr]
    refine ⟨?_, ?_, ?_, ?_⟩
    · simpa [hit] using congrArg (· ++ [s.nextId]) hfifo
    · simp [hex]
    · intro hcontra; simp at hcontra
    · intro _
      exact ⟨s.nextId, [], by simp [hex, hit], by simp [hit]⟩

lemma queueInv_settle {s : QueueState} (outcome : Bool) (h : QueueInv s) :
    QueueInv (queueSettle s outcome) := by
  obtain ⟨hfifo, hlen, hoff, hon⟩ := h
  rcases hex : s.executing with _ | ⟨j, _ | ⟨k, rest⟩⟩
  · simp only [queueSettle, hex]
    exact ⟨hfifo, hlen, hoff, hon⟩
  · have hr : s.running = true := by
      cases hrv : s.running
      · exact absurd (hoff hrv).1 (by simp [hex])
      · rfl
    obtain ⟨j', t, hex', hit⟩ := hon hr
    have hj : j' = j := by
      have hjj := hex'.symm.trans hex
      injection hjj
    subst hj
    rw [hit] at hfifo
    simp only [queueSettle, hex, hit, List.tail_cons]
    cases t with
    | nil =>
      simp only [List.isEmpty_nil, if_true]
      refine ⟨?_, by simp, fun _ => ⟨rfl, rfl⟩, fun hc => by simp at hc⟩
      simpa using hfifo
    | cons h2 t2 =>
      simp only [List.isEmpty_cons, if_false, Bool.false_eq_true]
      refine ⟨?_, by simp, ?_, fun _ => ⟨h2, t2, by simp, rfl⟩⟩
      · simpa using hfifo
      · intro hc
        rw [hr] at hc
        cases hc
  · rw [hex] at hlen
    simp at hlen

lemma queueReaches_inv {s : QueueState} (h : QueueReaches s) : QueueInv s := by
  induction h with
  | init => exact queueInv_init
  | add _ ih => exact queueInv_add ih
  | settle outcome _ ih => exact queueInv_settle outcome ih

/-- C2: in every reachable queue state at most one task is executing, the
completion handles settled so far (resolved or rejected alike) are exactly
the enqueued jobs in enqueue order with the still-queued jobs following,
and once the queue drains every handle has settled in enqueue order. -/
theorem queue_single_execution_fifo_settlement (s : QueueState)
    (h : QueueReaches s) :
    s.executing.length ≤ 1 ∧
    s.settled.map Prod.fst ++ s.items = s.enqueued ∧
    (s.items = [] → s.settled.map Prod.fst = s.enqueued) := by
  obtain ⟨hfifo, hlen, _, _⟩ := queueReaches_inv h
  refine ⟨hlen, hfifo, fun hempty => ?_⟩
  rw [hempty] at hfifo
  simpa using hfifo

/-- Witness for C2: two jobs enqueued back-to-back, the first rejecting and
the second resolving, settle as `[(0, false), (1, true)]` — enqueue order —
with never more than one task executing. -/
theorem queue_single_execution_fifo_settlement_witness :
    (queueSettle (queueSettle (queueAdd (queueAdd initQueue).2).2 false) true).executing.length ≤ 1 ∧
    (queueSettle (queueSettle (queueAdd (queueAdd initQueue).2).2 false) true).settled.map Prod.fst ++
        (queueSettle (queueSettle (queueAdd (queueAdd initQueue).2).2 false) true).items =
      (queueSettle (queueSettle (queueAdd (queueAdd initQueue).2).2 false) true).enqueued ∧
    ((queueSettle (queueSettle (queueAdd (queueAdd initQueue).2).2 false) true).items = [] →
      (queueSettle (queueSettle (queueAdd (queueAdd initQueue).2).2 false) true).settled.map Prod.fst =
        (queueSettle (queueSettle (queueAdd (queueAdd initQueue).2).2 false) true).enqueued) :=
  queue_single_execution_fifo_settlement _
    (QueueReaches.settle true (QueueReaches.settle false
      (QueueReaches.add (QueueReaches.add QueueReaches.init))))

/-- C7: `add` returns, synchronously, the 1-based position the new job
occupies at the instant of enqueue (the result of `items.push`, counting
the job itself), and two consecutive `add` calls with no intervening
completion return positions increasing by exactly one. -/
theorem queueAdd_position_synchronous (s : QueueState) :
    (queueAdd s).1 = s.items.length + 1 ∧
    (queueAdd (queueAdd s).2).1 = (queueAdd s).1 + 1 := by
  unfold queueAdd
  by_cases hr : s.running <;> simp [hr]

/-! ## Pending-selection store (`src/index.js`, lines 144–167)

`pendingSelections` is a `Map` from conversation identifier to an entry
carrying the selection payload and an absolute expiry instant in
milliseconds.  The map is modelled as a function from identifiers to
optional entries; `Map.delete` is a pointwise update. -/

/-- One entry of `pendingSelections`: the spread payload (abstracted to an
identifier — its contents never influence expiry) and `expiresAt`. -/
structure PendingEntry where
  payloadId : Nat
  expiresAt : Nat
deriving DecidableEq, Repr

/-- The `pendingSelections` map. -/
def SelectionStore : Type := Nat → Option PendingEntry

/-- `setPendingSelection(chatId, payload)` (lines 144–149): overwrite the
conversation's entry, stamping `expiresAt = now + selectionTimeoutSeconds * 1000`. -/
def setPendingSelection (store : SelectionStore) (now selectionTimeoutSeconds : Nat)
    (chatId payloadId : Nat) : SelectionStore :=
  fun key =>
    if key = chatId then
      some { payloadId := payloadId,
             expiresAt := now + selectionTimeoutSeconds * 1000 }
    else store key

/-- `getPendingSelection(chatId)` (lines 151–163): return the entry, unless
it is absent, or `Date.now() > pending.expiresAt` — in which case the entry
is deleted (lazy eviction) and nothing is returned.  The result pairs the
returned value with the store after the call. -/
def getPendingSelection (store : SelectionStore) (now chatId : Nat) :
    Option PendingEntry × SelectionStore :=
  match store chatId with
  | none => (none, store)
  | some pending =>
    if pending.expiresAt < now then
      (none, fun key => if key = chatId then none else store key)
    else (some pending, store)

/-- C4: reading a pending selection strictly after its expiry instant
returns nothing and deletes the entry (other conversations untouched), and
a second read at any instant is again absent and leaves the store exactly
as it was — lazy eviction is idempotent. -/
theorem getPendingSelection_expired_evicts_idempotent (store : SelectionStore)
    (pending : PendingEntry) (chatId now now' : Nat)
    (hfound : store chatId = some pending) (hexpired : pending.expiresAt < now) :
    (getPendingSelection store now chatId).1 = none ∧
    (getPendingSelection store now chatId).2 chatId = none ∧
    (∀ key, key ≠ chatId →
      (getPendingSelection store now chatId).2 key = store key) ∧
    (getPendingSelection (getPendingSelection store now chatId).2 now' chatId).1 = none ∧
    (getPendingSelection (getPendingSelection store now chatId).2 now' chatId).2 =
      (getPendingSelection store now chatId).2 := by
  have hfirst : getPendingSelection store now chatId =
      (none, fun key => if key = chatId then none else store key) := by
    unfold getPendingSelection
    rw [hfound]
    simp [hexpired]
  refine ⟨by rw [hfirst], by rw [hfirst]; simp, ?_, ?_, ?_⟩
  · intro key hkey
    rw [hfirst]
    simp [hkey]
  · rw [hfirst]
    unfold getPendingSelection
    simp
  · rw [hfirst]
    unfold getPendingSelection
    simp

/-- Witness for C4: a store holding one entry for conversation 7 expiring
at instant 1000, read at instant 1001 and re-read at instant 5000. -/
theorem getPendingSelection_expired_evicts_idempotent_witness :
    ((fun key => if key = 7 then some ⟨1, 1000⟩ else none : SelectionStore) 7 =
        some ⟨1, 1000⟩ ∧
      (⟨1, 1000⟩ : PendingEntry).expiresAt < 1001) ∧
    (getPendingSelection
        (fun key => if key = 7 then some ⟨1, 1000⟩ else none) 1001 7).1 = none ∧
    (getPendingSelection
        (fun key => if key = 7 then some ⟨1, 1000⟩ else none) 1001 7).2 7 = none ∧
    (∀ key, key ≠ 7 →
      (getPendingSelection
          (fun key => if key = 7 then some ⟨1, 1000⟩ else none) 1001 7).2 key =
        (fun key => if key = 7 then some ⟨1, 1000⟩ else none : SelectionStore) key) ∧
    (getPendingSelection
        (getPendingSelection
          (fun key => if key = 7 then some ⟨1, 1000⟩ else none) 1001 7).2 5000 7).1 =
      none ∧
    (getPendingSelection
        (getPendingSelection
          (fun key => if key = 7 then some ⟨1, 1000⟩ else none) 1001 7).2 5000 7).2 =
      (getPendingSelection
          (fun key => if key = 7 then some ⟨1, 1000⟩ else none) 1001 7).2 :=
  ⟨⟨by simp, by decide⟩,
    getPendingSelection_expired_evicts_idempotent
      (fun key => if key = 7 then some ⟨1, 1000⟩ else none) ⟨1, 1000⟩ 7 1001 5000
      (by simp) (by decide)⟩

/-- C10: the expiry boundary is exclusive — a read at the instant exactly
equal to `expiresAt` still returns the entry and leaves the store
unchanged; in particular an entry stamped by `setPendingSelection` is still
returned at `now + selectionTimeoutSeconds * 1000` exactly. -/
theorem getPendingSelection_boundary_inclusive (store : SelectionStore)
    (pending : PendingEntry) (chatId : Nat)
    (hfound : store chatId = some pending) :
    getPendingSelection store pending.expiresAt chatId = (some pending, store) ∧
    ∀ now selectionTimeoutSeconds payloadId,
      getPendingSelection
          (setPendingSelection store now selectionTimeoutSeconds chatId payloadId)
          (now + selectionTimeoutSeconds * 1000) chatId =
        (some ⟨payloadId, now + selectionTimeoutSeconds * 1000⟩,
          setPendingSelection store now selectionTimeoutSeconds chatId payloadId) := by
  constructor
  · unfold getPendingSelection
    rw [hfound]
    simp
  · intro now timeout payloadId
    unfold getPendingSelection setPendingSelection
    simp

/-- Witness for C10: reading the entry of conversation 7 at exactly its
expiry instant 1000 returns it and evicts nothing. -/
theorem getPendingSelection_boundary_inclusive_witness :
    ((fun key => if key = 7 then some ⟨1, 1000⟩ else none : SelectionStore) 7 =
        some ⟨1, 1000⟩) ∧
    getPendingSelection
        (fun key => if key = 7 then some ⟨1, 1000⟩ else none)
        (⟨1, 1000⟩ : PendingEntry).expiresAt 7 =
      (some ⟨1, 1000⟩, fun key => if key = 7 then some ⟨1, 1000⟩ else none) :=
  ⟨by simp,
    (getPendingSelection_boundary_inclusive
      (fun key => if key = 7 then some ⟨1, 1000⟩ else none) ⟨1, 1000⟩ 7 (by simp)).1⟩

/-! ## JavaScript strings at ASCII granularity

A JavaScript string is a sequence of UTF-16 code units, modelled as a
`List Nat`.  `toLowerCase`, `trim` and the regex character classes `[a-z]`,
`\d`, `\s` are modelled at ASCII granularity, which distinguishes exactly
the inputs the relevant code paths distinguish. -/

/-- A JavaScript string as its sequence of UTF-16 code units. -/
abbrev JsString := List Nat

/-- Embed a Lean string literal as a `JsString` (all literals used below
are ASCII, where code points and UTF-16 code units coincide). -/
def codes (s : String) : JsString :=
  s.data.map Char.toNat

/-- `toLowerCase` on one ASCII code unit. -/
def jsLowerChar (c : Nat) : Nat :=
  if 65 ≤ c ∧ c ≤ 90 then c + 32 else c

/-- `String.prototype.toLowerCase`. -/
def jsToLower (l : JsString) : JsString :=
  l.map jsLowerChar

/-- The regex class `\s` (and the characters `trim` strips): space, tab,
LF, CR, VT, FF. -/
def jsIsSpace (c : Nat) : Bool :=
  decide (c = 32 ∨ c = 9 ∨ c = 10 ∨ c = 13 ∨ c = 11 ∨ c = 12)

/-- The regex class `\d`. -/
def isRegexDigit (c : Nat) : Bool :=
  decide (48 ≤ c ∧ c ≤ 57)

/-- The regex class `[a-z]`. -/
def isRegexLowerAlpha (c : Nat) : Bool :=
  decide (97 ≤ c ∧ c ≤ 122)

/-- `String.prototype.trim`. -/
def jsTrim (l : JsString) : JsString :=
  ((l.dropWhile jsIsSpace).reverse.dropWhile jsIsSpace).reverse

/-- `Number(value)` on a digit-only string (the only inputs the selection
parser applies it to). -/
def digitsToNat (l : JsString) : Nat :=
  l.foldl (fun n c => n * 10 + (c - 48)) 0

/-- Does `hay` start with `needle`? (helper for `String.prototype.includes`). -/
def jsStartsWith : JsString → JsString → Bool
  | _, [] => true
  | [], _ :: _ => false
  | c :: cs, n :: ns => c == n && jsStartsWith cs ns

/-- `hay.includes(needle)`. -/
def jsIncludes (hay needle : JsString) : Bool :=
  match hay with
  | [] => jsStartsWith [] needle
  | _ :: t => jsStartsWith hay needle || jsIncludes t needle

/-! ## Duration policy (`src/index.js`, lines 224–265) -/

/-- The duration-related configuration of `src/config.js` (both fields pass
through `toPositiveNumber`, hence are positive in any real configuration;
positivity is taken as an explicit hypothesis where needed). -/
structure DurationConfig where
  maxAudioDuration : Nat
  maxVideoDuration : Nat
deriving DecidableEq, Repr

/-- A video candidate as the duration policy sees it:
`Number(video?.durationSeconds) || 0` is modelled by the field itself, with
`0` covering undefined/NaN/zero alike. -/
structure Candidate where
  title : JsString
  url : JsString
  author : JsString
  durationSeconds : Nat
deriving DecidableEq, Repr

/-- `getVideoSupport(video)` (lines 224–230). -/
def getVideoSupport (cfg : DurationConfig) (video : Candidate) : Bool × Bool :=
  let duration := video.durationSeconds
  (decide (0 < duration) && decide (duration ≤ cfg.maxAudioDuration),
   decide (0 < duration) && decide (duration ≤ cfg.maxVideoDuration))

/-- `assertDurationForMedia(video, mediaType)` (lines 250–265): reject a
zero/unknown duration with `INVALID_DURATION`, and a duration above the
chosen media type's ceiling with the media-specific limit code. -/
def assertDurationForMedia (cfg : DurationConfig) (video : Candidate)
    (mediaType : MediaType) : Except YoutubeErrorCode Unit :=
  let duration := video.durationSeconds
  let limit := match mediaType with
    | .video => cfg.maxVideoDuration
    | .audio => cfg.maxAudioDuration
  if duration = 0 then .error .INVALID_DURATION
  else if limit < duration then
    .error (match mediaType with
      | .video => .VIDEO_DURATION_LIMIT
      | .audio => .AUDIO_DURATION_LIMIT)
  else .ok ()

/-- C3: a candidate of duration 0 fails with `INVALID_DURATION` for both
media types; duration exactly `maxAudioDuration` is accepted for audio
(inclusive boundary, given the configured ceiling is positive as
`toPositiveNumber` guarantees); duration `maxAudioDuration + 1` is rejected
with `AUDIO_DURATION_LIMIT`. -/
theorem assertDurationForMedia_boundaries (cfg : DurationConfig)
    (c0 cEq cOver : Candidate) (hpos : 0 < cfg.maxAudioDuration)
    (h0 : c0.durationSeconds = 0)
    (hEq : cEq.durationSeconds = cfg.maxAudioDuration)
    (hOver : cOver.durationSeconds = cfg.maxAudioDuration + 1) :
    (∀ mediaType, assertDurationForMedia cfg c0 mediaType =
      .error .INVALID_DURATION) ∧
    assertDurationForMedia cfg cEq .audio = .ok () ∧
    assertDurationForMedia cfg cOver .audio = .error .AUDIO_DURATION_LIMIT := by
  refine ⟨fun mediaType => ?_, ?_, ?_⟩
  · unfold assertDurationForMedia
    rw [h0]
    simp
  · unfold assertDurationForMedia
    rw [hEq]
    have h1 : ¬ cfg.maxAudioDuration = 0 := by omega
    have h2 : ¬ cfg.maxAudioDuration < cfg.maxAudioDuration := by omega
    simp [h1, h2]
  · unfold assertDurationForMedia
    rw [hOver]
    have h1 : ¬ cfg.maxAudioDuration + 1 = 0 := by omega
    have h2 : cfg.maxAudioDuration < cfg.maxAudioDuration + 1 := by omega
    simp [h1, h2]

/-- Witness for C3 at the default configuration (`maxAudioDuration = 1800`,
`maxVideoDuration = 1200`) with candidates of duration 0, 1800 and 1801. -/
theorem assertDurationForMedia_boundaries_witness :
    ((0:Nat) < 1800 ∧ (0:Nat) = 0 ∧ (1800:Nat) = 1800 ∧ (1801:Nat) = 1800 + 1) ∧
    ((∀ mediaType, assertDurationForMedia ⟨1800, 1200⟩ ⟨[], [], [], 0⟩ mediaType =
        .error .INVALID_DURATION) ∧
      assertDurationForMedia ⟨1800, 1200⟩ ⟨[], [], [], 1800⟩ .audio = .ok () ∧
      assertDurationForMedia ⟨1800, 1200⟩ ⟨[], [], [], 1801⟩ .audio =
        .error .AUDIO_DURATION_LIMIT) :=
  ⟨⟨by decide, rfl, rfl, rfl⟩,
    assertDurationForMedia_boundaries ⟨1800, 1200⟩
      ⟨[], [], [], 0⟩ ⟨[], [], [], 1800⟩ ⟨[], [], [], 1801⟩
      (by decide) rfl rfl rfl⟩

/-! ## Transport send-failure classification (`src/index.js`, lines 135–142
and 336–393) -/

/-- `isWhatsAppSizeError(error)` (lines 135–142): does the lowercased
message of a transport error indicate a size-related rejection? -/
def isWhatsAppSizeError (message : JsString) : Bool :=
  let rawMessage := jsToLower message
  jsIncludes rawMessage (codes ("too large")) ||
  jsIncludes rawMessage (codes ("media too big")) ||
  jsIncludes rawMessage (codes ("413"))

/-- Error codes attached to a rethrown transport send failure. -/
inductive WhatsAppSendCode where
  | WHATSAPP_SEND_AUDIO_FAILED
  | WHATSAPP_SEND_VIDEO_FAILED
deriving DecidableEq, Repr

/-- The failure reported by one `processSelectedMedia` job to
`mapPlayError`: either a `DownloadError` (including the re-classified
`FILE_TOO_LARGE`) or a transport send failure tagged with the code the
catch block assigns. -/
inductive MediaJobError where
  | download (code : DownloadErrorCode)
  | transportSend (code : WhatsAppSendCode) (message : JsString)
deriving DecidableEq, Repr

/-- Outcome oracle for `replyAudio` / `replyVideo`: delivered, or rejected
with a transport error carrying `message`. -/
inductive SendOutcome where
  | sent
  | failed (message : JsString)

/-- The error-reporting skeleton of `processSelectedMedia` (lines 336–393):
the download step is abstracted to its outcome, and a send failure is
re-classified as `FILE_TOO_LARGE` exactly when `isWhatsAppSizeError`
accepts its message, otherwise rethrown with the per-media-type
`WHATSAPP_SEND_*_FAILED` code; the returned value is the error the outer
catch hands to `mapPlayError`, or `none` on success. -/
def processSelectedMediaReport (mediaType : MediaType)
    (downloadOutcome : Except DownloadErrorCode Unit)
    (sendOutcome : SendOutcome) : Option MediaJobError :=
  match downloadOutcome with
  | .error e => some (.download e)
  | .ok () =>
    match sendOutcome with
    | .sent => none
    | .failed message =>
      if isWhatsAppSizeError message then some (.download .FILE_TOO_LARGE)
      else
        some (.transportSend
          (match mediaType with
            | .video => .WHATSAPP_SEND_VIDEO_FAILED
            | .audio => .WHATSAPP_SEND_AUDIO_FAILED) message)

/-- C8: a failed transport send is reported as the size error
`FILE_TOO_LARGE` if and only if the transport error's lowercased message
contains `"too large"`, `"media too big"` or `"413"`; otherwise it is
reported as the generic send-failed code of the requested media type. -/
theorem send_failure_size_reclassification (mediaType : MediaType)
    (message : JsString) :
    (processSelectedMediaReport mediaType (.ok ()) (.failed message) =
        some (.download .FILE_TOO_LARGE) ↔
      (jsIncludes (jsToLower message) (codes ("too large")) ||
       jsIncludes (jsToLower message) (codes ("media too big")) ||
       jsIncludes (jsToLower message) (codes ("413"))) = true) ∧
    ((jsIncludes (jsToLower message) (codes ("too large")) ||
      jsIncludes (jsToLower message) (codes ("media too big")) ||
      jsIncludes (jsToLower message) (codes ("413"))) = false →
      processSelectedMediaReport mediaType (.ok ()) (.failed message) =
        some (.transportSend
          (match mediaType with
            | .video => .WHATSAPP_SEND_VIDEO_FAILED
            | .audio => .WHATSAPP_SEND_AUDIO_FAILED) message)) := by
  have hdef : isWhatsAppSizeError message =
      (jsIncludes (jsToLower message) (codes ("too large")) ||
       jsIncludes (jsToLower message) (codes ("media too big")) ||
       jsIncludes (jsToLower message) (codes ("413"))) := rfl
  cases hsz : isWhatsAppSizeError message with
  | true =>
    rw [← hdef]
    simp [processSelectedMediaReport, hsz]
  | false =>
    rw [← hdef]
    simp [processSelectedMediaReport, hsz]

/-- Witness for C8: a message carrying an HTTP 413 marker is re-classified
as `FILE_TOO_LARGE`; an unrelated message is reported as the generic video
send failure. -/
theorem send_failure_size_reclassification_witness :
    processSelectedMediaReport .video (.ok ())
        (.failed (codes ("Request failed: Payload Too Large (413)"))) =
      some (.download .FILE_TOO_LARGE) ∧
    ((jsIncludes (jsToLower (codes ("Connection Closed")))
        (codes ("too large")) ||
      jsIncludes (jsToLower (codes ("Connection Closed")))
        (codes ("media too big")) ||
      jsIncludes (jsToLower (codes ("Connection Closed")))
        (codes ("413"))) = false ∧
      processSelectedMediaReport .video (.ok ())
          (.failed (codes ("Connection Closed"))) =
        some (.transportSend .WHATSAPP_SEND_VIDEO_FAILED
          (codes ("Connection Closed")))) :=
  ⟨(send_failure_size_reclassification .video
      (codes ("Request failed: Payload Too Large (413)"))).1.mpr (by decide),
   ⟨by decide,
    (send_failure_size_reclassification .video
      (codes ("Connection Closed"))).2 (by decide)⟩⟩

/-! ## Selection-choice parsing (`src/index.js`, lines 169–222) -/

/-- The parsed reply to a disambiguation prompt. -/
structure SelectionChoice where
  index : Nat
  mediaType : MediaType
deriving DecidableEq, Repr

/-- `normalizeMediaToken(token)` (lines 169–180). -/
def normalizeMediaToken (token : JsString) : Option MediaType :=
  let value := jsToLower token
  if value = codes ("a") ∨ value = codes ("audio") then some MediaType.audio
  else if value = codes ("v") ∨ value = codes ("video") then some MediaType.video
  else none

/-- The letter-token mapping exactly as the specification words it:
`a`/`audio` → audio, `v`/`video` → video, anything else no match. -/
def mediaTokenSpec (token : JsString) : Option MediaType :=
  if token = codes ("a") ∨ token = codes ("audio") then some MediaType.audio
  else if token = codes ("v") ∨ token = codes ("video") then some MediaType.video
  else none

/-- The body of `parseSelectionChoice` (lines 182–222) after the
normalisation `String(text || '').trim().toLowerCase()`.  The anchored
regular expressions `/^\d+$/`, `/^([a-z]+)\s*(\d+)$/` and
`/^(\d+)\s*([a-z]+)$/` are implemented by maximal-munch decomposition,
which matches regex semantics because the classes `[a-z]`, `\s`, `\d` are
pairwise disjoint. -/
def parseValueChoice (value : JsString) (defaultMediaType : MediaType) :
    Option SelectionChoice :=
  if value = [] then none
  else if value.all isRegexDigit = true then
    some ⟨digitsToNat value, defaultMediaType⟩
  else
    let letters1 := value.takeWhile isRegexLowerAlpha
    let digits1 := (value.dropWhile isRegexLowerAlpha).dropWhile jsIsSpace
    if letters1 ≠ [] ∧ digits1 ≠ [] ∧ digits1.all isRegexDigit = true then
      match normalizeMediaToken letters1 with
      | none => none
      | some mediaType => some ⟨digitsToNat digits1, mediaType⟩
    else
      let digits2 := value.takeWhile isRegexDigit
      let letters2 := (value.dropWhile isRegexDigit).dropWhile jsIsSpace
      if digits2 ≠ [] ∧ letters2 ≠ [] ∧ letters2.all isRegexLowerAlpha = true then
        match normalizeMediaToken letters2 with
        | none => none
        | some mediaType => some ⟨digitsToNat digits2, mediaType⟩
      else none

/-- `parseSelectionChoice(text, defaultMediaType)` (lines 182–222). -/
def parseSelectionChoice (text : JsString) (defaultMediaType : MediaType) :
    Option SelectionChoice :=
  parseValueChoice (jsToLower (jsTrim text)) defaultMediaType

/-- A non-empty all-`\d` segment. -/
def DigitsSeg (l : JsString) : Prop :=
  l ≠ [] ∧ ∀ c ∈ l, isRegexDigit c = true

/-- A non-empty all-`[a-z]` segment. -/
def AlphaSeg (l : JsString) : Prop :=
  l ≠ [] ∧ ∀ c ∈ l, isRegexLowerAlpha c = true

/-- A possibly empty all-`\s` segment. -/
def SpaceSeg (l : JsString) : Prop :=
  ∀ c ∈ l, jsIsSpace c = true

instance (l : JsString) : Decidable (DigitsSeg l) :=
  inferInstanceAs (Decidable (l ≠ [] ∧ ∀ c ∈ l, isRegexDigit c = true))

instance (l : JsString) : Decidable (AlphaSeg l) :=
  inferInstanceAs (Decidable (l ≠ [] ∧ ∀ c ∈ l, isRegexLowerAlpha c = true))

instance (l : JsString) : Decidable (SpaceSeg l) :=
  inferInstanceAs (Decidable (∀ c ∈ l, jsIsSpace c = true))

/-- The specification of a successful selection reply, on the normalised
(trimmed, lowercased) text: exactly three shapes — a bare integer taking
the conversation's default media type, letter-token then digits, or digits
then letter-token, the letter token being drawn from the spec mapping with
optional whitespace between the two groups. -/
def SelectionShape (value : JsString) (defaultMediaType : MediaType)
    (choice : SelectionChoice) : Prop :=
  (DigitsSeg value ∧ choice = ⟨digitsToNat value, defaultMediaType⟩) ∨
  (∃ letters sp digits mt, value = letters ++ sp ++ digits ∧
    AlphaSeg letters ∧ SpaceSeg sp ∧ DigitsSeg digits ∧
    mediaTokenSpec letters = some mt ∧ choice = ⟨digitsToNat digits, mt⟩) ∨
  (∃ digits sp letters mt, value = digits ++ sp ++ letters ∧
    DigitsSeg digits ∧ SpaceSeg sp ∧ AlphaSeg letters ∧
    mediaTokenSpec letters = some mt ∧ choice = ⟨digitsToNat digits, mt⟩)

/-! ### Character-class facts -/

lemma alpha_bounds {c : Nat} (h : isRegexLowerAlpha c = true) :
    97 ≤ c ∧ c ≤ 122 := by
  simpa [isRegexLowerAlpha] using h

lemma digit_bounds {c : Nat} (h : isRegexDigit c = true) :
    48 ≤ c ∧ c ≤ 57 := by
  simpa [isRegexDigit] using h

lemma space_bounds {c : Nat} (h : jsIsSpace c = true) :
    c = 32 ∨ c = 9 ∨ c = 10 ∨ c = 13 ∨ c = 11 ∨ c = 12 := by
  simpa [jsIsSpace] using h

lemma not_digit_of_alpha {c : Nat} (h : isRegexLowerAlpha c = true) :
    isRegexDigit c = false := by
  cases hd : isRegexDigit c
  · rfl
  · exfalso
    have h1 := alpha_bounds h
    have h2 := digit_bounds hd
    omega

lemma not_alpha_of_digit {c : Nat} (h : isRegexDigit c = true) :
    isRegexLowerAlpha c = false := by
  cases ha : isRegexLowerAlpha c
  · rfl
  · exfalso
    have h1 := digit_bounds h
    have h2 := alpha_bounds ha
    omega

lemma not_alpha_of_space {c : Nat} (h : jsIsSpace c = true) :
    isRegexLowerAlpha c = false := by
  cases ha : isRegexLowerAlpha c
  · rfl
  · exfalso
    have h1 := space_bounds h
    have h2 := alpha_bounds ha
    omega

lemma not_space_of_digit {c : Nat} (h : isRegexDigit c = true) :
    jsIsSpace c = false := by
  cases hs : jsIsSpace c
  · rfl
  · exfalso
    have h1 := digit_bounds h
    have h2 := space_bounds hs
    omega

lemma not_digit_of_space {c : Nat} (h : jsIsSpace c = true) :
    isRegexDigit c = false := by
  cases hd : isRegexDigit c
  · rfl
  · exfalso
    have h1 := space_bounds h
    have h2 := digit_bounds hd
    omega

lemma not_space_of_alpha {c : Nat} (h : isRegexLowerAlpha c = true) :
    jsIsSpace c = false := by
  cases hs : jsIsSpace c
  · rfl
  · exfalso
    have h1 := alpha_bounds h
    have h2 := space_bounds hs
    omega

/-! ### Maximal-munch decomposition facts -/

lemma takeWhile_append_eq {p : Nat → Bool} :
    ∀ (a rest : JsString), (∀ c ∈ a, p c = true) →
      (∀ x xs, rest = x :: xs → p x = false) →
      (a ++ rest).takeWhile p = a ∧ (a ++ rest).dropWhile p = rest := by
  intro a
  induction a with
  | nil =>
    intro rest _ hrest
    cases rest with
    | nil => simp
    | cons x xs =>
      simp [List.takeWhile_cons, List.dropWhile_cons, hrest x xs rfl]
  | cons c cs ih =>
    intro rest ha hrest
    have hc : p c = true := ha c (by simp)
    have ihh := ih rest (fun d hd => ha d (by simp [hd])) hrest
    simp [List.takeWhile_cons, List.dropWhile_cons, hc, ihh.1, ihh.2]

lemma takeWhile_nil_of_head_false {p : Nat → Bool} {v : JsString} {x : Nat}
    {xs : JsString} (hv : v = x :: xs) (hx : p x = false) :
    v.takeWhile p = [] := by
  subst hv
  simp [List.takeWhile_cons, hx]

lemma all_digit_false_of_alpha_mem {v : JsString} {c : Nat} (hc : c ∈ v)
    (ha : isRegexLowerAlpha c = true) : v.all isRegexDigit = false := by
  cases hall : v.all isRegexDigit
  · rfl
  · exfalso
    have h1 := List.all_eq_true.mp hall c hc
    rw [not_digit_of_alpha ha] at h1
    exact absurd h1 (by decide)

/-- Uniqueness of the `^([a-z]+)\s*(\d+)$` decomposition: on any string of
that shape, maximal munch recovers exactly its groups. -/
lemma split_alpha_space_digit {L S D : JsString} (hA : AlphaSeg L)
    (hS : SpaceSeg S) (hD : DigitsSeg D) :
    (L ++ S ++ D).takeWhile isRegexLowerAlpha = L ∧
    ((L ++ S ++ D).dropWhile isRegexLowerAlpha).dropWhile jsIsSpace = D := by
  have hrest1 : ∀ x xs, S ++ D = x :: xs → isRegexLowerAlpha x = false := by
    intro x xs hx
    cases S with
    | nil =>
      rw [List.nil_append] at hx
      exact not_alpha_of_digit (hD.2 x (by rw [hx]; simp))
    | cons s S2 =>
      rw [List.cons_append] at hx
      injection hx with h1 _
      exact not_alpha_of_space (hS x (by rw [← h1]; simp))
  have hrest2 : ∀ x xs, D = x :: xs → jsIsSpace x = false := by
    intro x xs hx
    exact not_space_of_digit (hD.2 x (by rw [hx]; simp))
  have h1 := takeWhile_append_eq L (S ++ D) hA.2 hrest1
  have h2 := takeWhile_append_eq S D hS hrest2
  rw [List.append_assoc]
  exact ⟨h1.1, by rw [h1.2, h2.2]⟩

/-- Uniqueness of the `^(\d+)\s*([a-z]+)$` decomposition. -/
lemma split_digit_space_alpha {D S L : JsString} (hD : DigitsSeg D)
    (hS : SpaceSeg S) (hA : AlphaSeg L) :
    (D ++ S ++ L).takeWhile isRegexDigit = D ∧
    ((D ++ S ++ L).dropWhile isRegexDigit).dropWhile jsIsSpace = L := by
  have hrest1 : ∀ x xs, S ++ L = x :: xs → isRegexDigit x = false := by
    intro x xs hx
    cases S with
    | nil =>
      rw [List.nil_append] at hx
      exact not_digit_of_alpha (hA.2 x (by rw [hx]; simp))
    | cons s S2 =>
      rw [List.cons_append] at hx
      injection hx with h1 _
      exact not_digit_of_space (hS x (by rw [← h1]; simp))
  have hrest2 : ∀ x xs, L = x :: xs → jsIsSpace x = false := by
    intro x xs hx
    exact not_space_of_alpha (hA.2 x (by rw [hx]; simp))
  have h1 := takeWhile_append_eq D (S ++ L) hD.2 hrest1
  have h2 := takeWhile_append_eq S L hS hrest2
  rw [List.append_assoc]
  exact ⟨h1.1, by rw [h1.2, h2.2]⟩

lemma jsToLower_eq_self_of_alpha {L : JsString}
    (h : ∀ c ∈ L, isRegexLowerAlpha c = true) : jsToLower L = L := by
  induction L with
  | nil => rfl
  | cons c t ih =>
    have hc := alpha_bounds (h c (by simp))
    have ht := ih (fun d hd => h d (by simp [hd]))
    unfold jsToLower at ht ⊢
    simp only [List.map_cons, ht]
    unfold jsLowerChar
    rw [if_neg (by omega)]

lemma normalizeMediaToken_eq_spec {L : JsString}
    (h : ∀ c ∈ L, isRegexLowerAlpha c = true) :
    normalizeMediaToken L = mediaTokenSpec L := by
  unfold normalizeMediaToken mediaTokenSpec
  rw [jsToLower_eq_self_of_alpha h]

/-- Soundness and completeness of `parseSelectionChoice`'s body with
respect to the three-shape specification, on normalised input. -/
lemma parseValueChoice_eq_some_iff (v : JsString) (d : MediaType)
    (choice : SelectionChoice) :
    parseValueChoice v d = some choice ↔ SelectionShape v d choice := by
  by_cases hv : v = []
  · subst hv
    simp only [parseValueChoice, if_pos rfl]
    constructor
    · intro h
      cases h
    · intro h
      exfalso
      rcases h with ⟨⟨hne, _⟩, _⟩ | ⟨L, S, D, mt, heq, hA, _, _, _, _⟩ |
        ⟨D, S, L, mt, heq, hD, _, _, _, _⟩
      · exact hne rfl
      · have h1 := List.append_eq_nil.mp heq.symm
        have h2 := List.append_eq_nil.mp h1.1
        exact hA.1 h2.1
      · have h1 := List.append_eq_nil.mp heq.symm
        have h2 := List.append_eq_nil.mp h1.1
        exact hD.1 h2.1
  · by_cases hall : v.all isRegexDigit = true
    · simp only [parseValueChoice, if_neg hv, if_pos hall]
      constructor
      · intro h
        injection h with h
        exact Or.inl ⟨⟨hv, List.all_eq_true.mp hall⟩, h.symm⟩
      · intro h
        rcases h with ⟨_, hch⟩ | ⟨L, S, D, mt, heq, hA, _, _, _, _⟩ |
          ⟨D, S, L, mt, heq, _, _, hA, _, _⟩
        · rw [hch]
        · exfalso
          rcases L with _ | ⟨c, L2⟩
          · exact hA.1 rfl
          · have hcv : c ∈ v := by rw [heq]; simp
            have hfalse := all_digit_false_of_alpha_mem hcv (hA.2 c (by simp))
            rw [hall] at hfalse
            exact absurd hfalse (by decide)
        · exfalso
          rcases L with _ | ⟨c, L2⟩
          · exact hA.1 rfl
          · have hcv : c ∈ v := by rw [heq]; simp
            have hfalse := all_digit_false_of_alpha_mem hcv (hA.2 c (by simp))
            rw [hall] at hfalse
            exact absurd hfalse (by decide)
    · by_cases hg1 : v.takeWhile isRegexLowerAlpha ≠ [] ∧
          (v.dropWhile isRegexLowerAlpha).dropWhile jsIsSpace ≠ [] ∧
          ((v.dropWhile isRegexLowerAlpha).dropWhile jsIsSpace).all isRegexDigit = true
      · have hAseg : AlphaSeg (v.takeWhile isRegexLowerAlpha) :=
          ⟨hg1.1, fun c hc => List.mem_takeWhile_imp hc⟩
        have hSseg : SpaceSeg ((v.dropWhile isRegexLowerAlpha).takeWhile jsIsSpace) :=
          fun c hc => List.mem_takeWhile_imp hc
        have hDseg : DigitsSeg ((v.dropWhile isRegexLowerAlpha).dropWhile jsIsSpace) :=
          ⟨hg1.2.1, List.all_eq_true.mp hg1.2.2⟩
        have hveq : v = v.takeWhile isRegexLowerAlpha ++
            (v.dropWhile isRegexLowerAlpha).takeWhile jsIsSpace ++
            (v.dropWhile isRegexLowerAlpha).dropWhile jsIsSpace := by
          have hs1 := (List.takeWhile_append_dropWhile isRegexLowerAlpha v).symm
          have hs2 :=
            (List.takeWhile_append_dropWhile jsIsSpace (v.dropWhile isRegexLowerAlpha)).symm
          rw [hs2, ← List.append_assoc] at hs1
          exact hs1
        cases hmt : normalizeMediaToken (v.takeWhile isRegexLowerAlpha) with
        | none =>
          simp only [parseValueChoice, if_neg hv, if_neg hall, if_pos hg1, hmt]
          constructor
          · intro h
            cases h
          · intro h
            exfalso
            rcases h with ⟨hdig, _⟩ | ⟨L, S, D, mt0, heq, hA, hS, hD, hmt0, _⟩ |
              ⟨D, S, L, mt0, heq, hD, hS, hA, hmt0, _⟩
            · exact hall (List.all_eq_true.mpr hdig.2)
            · have hu := split_alpha_space_digit hA hS hD
              rw [← heq] at hu
              have hnm : normalizeMediaToken L = some mt0 := by
                rw [normalizeMediaToken_eq_spec hA.2]
                exact hmt0
              rw [← hu.1, hmt] at hnm
              cases hnm
            · rcases D with _ | ⟨x, D2⟩
              · exact hD.1 rfl
              · have hvx : v = x :: (D2 ++ (S ++ L)) := by rw [heq]; simp
                have hx := not_alpha_of_digit (hD.2 x (by simp))
                exact hg1.1 (takeWhile_nil_of_head_false hvx hx)
        | some mt =>
          simp only [parseValueChoice, if_neg hv, if_neg hall, if_pos hg1, hmt]
          constructor
          · intro h
            injection h with h
            refine Or.inr (Or.inl ⟨_, _, _, mt, hveq, hAseg, hSseg, hDseg, ?_, h.symm⟩)
            rw [← normalizeMediaToken_eq_spec hAseg.2]
            exact hmt
          · intro h
            rcases h with ⟨hdig, _⟩ | ⟨L, S, D, mt0, heq, hA, hS, hD, hmt0, hch⟩ |
              ⟨D, S, L, mt0, heq, hD, hS, hA, hmt0, _⟩
            · exact absurd (List.all_eq_true.mpr hdig.2) hall
            · have hu := split_alpha_space_digit hA hS hD
              rw [← heq] at hu
              have hnm : normalizeMediaToken L = some mt0 := by
                rw [normalizeMediaToken_eq_spec hA.2]
                exact hmt0
              rw [← hu.1, hmt] at hnm
              injection hnm with hmt_eq
              rw [hch, hu.2, hmt_eq]
            · exfalso
              rcases D with _ | ⟨x, D2⟩
              · exact hD.1 rfl
              · have hvx : v = x :: (D2 ++ (S ++ L)) := by rw [heq]; simp
                have hx := not_alpha_of_digit (hD.2 x (by simp))
                exact hg1.1 (takeWhile_nil_of_head_false hvx hx)
      · by_cases hg2 : v.takeWhile isRegexDigit ≠ [] ∧
            (v.dropWhile isRegexDigit).dropWhile jsIsSpace ≠ [] ∧
            ((v.dropWhile isRegexDigit).dropWhile jsIsSpace).all isRegexLowerAlpha = true
        · have hDseg : DigitsSeg (v.takeWhile isRegexDigit) :=
            ⟨hg2.1, fun c hc => List.mem_takeWhile_imp hc⟩
          have hSseg : SpaceSeg ((v.dropWhile isRegexDigit).takeWhile jsIsSpace) :=
            fun c hc => List.mem_takeWhile_imp hc
          have hAseg : AlphaSeg ((v.dropWhile isRegexDigit).dropWhile jsIsSpace) :=
            ⟨hg2.2.1, List.all_eq_true.mp hg2.2.2⟩
          have hveq : v = v.takeWhile isRegexDigit ++
              (v.dropWhile isRegexDigit).takeWhile jsIsSpace ++
              (v.dropWhile isRegexDigit).dropWhile jsIsSpace := by
            have hs1 := (List.takeWhile_append_dropWhile isRegexDigit v).symm
            have hs2 :=
              (List.takeWhile_append_dropWhile jsIsSpace (v.dropWhile isRegexDigit)).symm
            rw [hs2, ← List.append_assoc] at hs1
            exact hs1
          cases hmt : normalizeMediaToken ((v.dropWhile isRegexDigit).dropWhile jsIsSpace) with
          | none =>
            simp only [parseValueChoice, if_neg hv, if_neg hall, if_neg hg1, if_pos hg2, hmt]
            constructor
            · intro h
              cases h
            · intro h
              exfalso
              rcases h with ⟨hdig, _⟩ | ⟨L, S, D, mt0, heq, hA, hS, hD, hmt0, _⟩ |
                ⟨D, S, L, mt0, heq, hD, hS, hA, hmt0, _⟩
              · exact hall (List.all_eq_true.mpr hdig.2)
              · have hu := split_alpha_space_digit hA hS hD
                rw [← heq] at hu
                refine hg1 ⟨?_, ?_, ?_⟩
                · rw [hu.1]; exact hA.1
                · rw [hu.2]; exact hD.1
                · rw [hu.2]; exact List.all_eq_true.mpr hD.2
              · have hu := split_digit_space_alpha hD hS hA
                rw [← heq] at hu
                have hnm : normalizeMediaToken L = some mt0 := by
                  rw [normalizeMediaToken_eq_spec hA.2]
                  exact hmt0
                rw [← hu.2, hmt] at hnm
                cases hnm
          | some mt =>
            simp only [parseValueChoice, if_neg hv, if_neg hall, if_neg hg1, if_pos hg2, hmt]
            constructor
            · intro h
              injection h with h
              refine Or.inr (Or.inr ⟨_, _, _, mt, hveq, hDseg, hSseg, hAseg, ?_, h.symm⟩)
              rw [← normalizeMediaToken_eq_spec hAseg.2]
              exact hmt
            · intro h
              rcases h with ⟨hdig, _⟩ | ⟨L, S, D, mt0, heq, hA, hS, hD, hmt0, _⟩ |
                ⟨D, S, L, mt0, heq, hD, hS, hA, hmt0, hch⟩
              · exact absurd (List.all_eq_true.mpr hdig.2) hall
              · exfalso
                have hu := split_alpha_space_digit hA hS hD
                rw [← heq] at hu
                refine hg1 ⟨?_, ?_, ?_⟩
                · rw [hu.1]; exact hA.1
                · rw [hu.2]; exact hD.1
                · rw [hu.2]; exact List.all_eq_true.mpr hD.2
              · have hu := split_digit_space_alpha hD hS hA
                rw [← heq] at hu
                have hnm : normalizeMediaToken L = some mt0 := by
                  rw [normalizeMediaToken_eq_spec hA.2]
                  exact hmt0
                rw [← hu.2, hmt] at hnm
                injection hnm with hmt_eq
                rw [hch, hu.1, hmt_eq]
        · simp only [parseValueChoice, if_neg hv, if_neg hall, if_neg hg1, if_neg hg2]
          constructor
          · intro h
            cases h
          · intro h
            exfalso
            rcases h with ⟨hdig, _⟩ | ⟨L, S, D, mt0, heq, hA, hS, hD, hmt0, _⟩ |
              ⟨D, S, L, mt0, heq, hD, hS, hA, hmt0, _⟩
            · exact hall (List.all_eq_true.mpr hdig.2)
            · have hu := split_alpha_space_digit hA hS hD
              rw [← heq] at hu
              refine hg1 ⟨?_, ?_, ?_⟩
              · rw [hu.1]; exact hA.1
              · rw [hu.2]; exact hD.1
              · rw [hu.2]; exact List.all_eq_true.mpr hD.2
            · have hu := split_digit_space_alpha hD hS hA
              rw [← heq] at hu
              refine hg2 ⟨?_, ?_, ?_⟩
              · rw [hu.1]; exact hD.1
              · rw [hu.2]; exact hA.1
              · rw [hu.2]; exact List.all_eq_true.mpr hA.2

/-- C5: `parseSelectionChoice` succeeds exactly on the three shapes — bare
integer (taking the conversation's default media type), letter-token then
digits, digits then letter-token — with the letter token mapped by
`a`/`audio` → audio, `v`/`video` → video; any other letter token yields no
match (`none`), not an error. -/
theorem parseSelectionChoice_three_shapes (text : JsString) (d : MediaType)
    (choice : SelectionChoice) :
    parseSelectionChoice text d = some choice ↔
    SelectionShape (jsToLower (jsTrim text)) d choice :=
  parseValueChoice_eq_some_iff (jsToLower (jsTrim text)) d choice

/-- Witness for C5: the reply `A3` parses (letter-token shape, audio), and
via the reverse direction the recovered shape is the expected one; the
reply `x3`, whose letter token is unrecognised, yields no match. -/
theorem parseSelectionChoice_three_shapes_witness :
    (parseSelectionChoice (codes ("A3")) MediaType.video = some ⟨3, MediaType.audio⟩ ∧
      SelectionShape (jsToLower (jsTrim (codes ("A3")))) MediaType.video
        ⟨3, MediaType.audio⟩) ∧
    ¬ SelectionShape (jsToLower (jsTrim (codes ("x3")))) MediaType.video
        ⟨3, MediaType.audio⟩ :=
  ⟨⟨by decide,
    (parseSelectionChoice_three_shapes (codes ("A3")) MediaType.video
      ⟨3, MediaType.audio⟩).mp (by decide)⟩,
   fun h =>
     absurd ((parseSelectionChoice_three_shapes (codes ("x3")) MediaType.video
       ⟨3, MediaType.audio⟩).mpr h) (by decide)⟩

/-! ### Case and interior-whitespace insensitivity -/

lemma jsIsSpace_jsLowerChar (c : Nat) : jsIsSpace (jsLowerChar c) = jsIsSpace c := by
  unfold jsLowerChar
  split_ifs with h
  · unfold jsIsSpace
    simp only [decide_eq_decide]
    omega
  · rfl

lemma jsTrim_jsToLower_comm (l : JsString) :
    jsTrim (jsToLower l) = jsToLower (jsTrim l) := by
  have hfun : jsIsSpace ∘ jsLowerChar = jsIsSpace := funext jsIsSpace_jsLowerChar
  unfold jsTrim jsToLower
  rw [List.dropWhile_map, hfun, ← List.map_reverse, List.dropWhile_map, hfun,
    ← List.map_reverse]

lemma jsToLower_eq_self_of_not_upper {v : JsString}
    (h : ∀ c ∈ v, c < 65 ∨ 90 < c) : jsToLower v = v := by
  induction v with
  | nil => rfl
  | cons c t ih =>
    have hc := h c (by simp)
    have ht := ih (fun d hd => h d (by simp [hd]))
    unfold jsToLower at ht ⊢
    simp only [List.map_cons, ht]
    unfold jsLowerChar
    rw [if_neg (by omega)]

lemma dropWhile_eq_self_of_head_false {p : Nat → Bool} {l : JsString}
    (h : ∀ x xs, l = x :: xs → p x = false) : l.dropWhile p = l := by
  cases l with
  | nil => rfl
  | cons x xs => simp [List.dropWhile_cons, h x xs rfl]

lemma jsTrim_eq_self {v : JsString}
    (hhead : ∀ x xs, v = x :: xs → jsIsSpace x = false)
    (hlast : ∀ x xs, v.reverse = x :: xs → jsIsSpace x = false) :
    jsTrim v = v := by
  unfold jsTrim
  rw [dropWhile_eq_self_of_head_false hhead,
    dropWhile_eq_self_of_head_false hlast, List.reverse_reverse]

/-- Trimming and lowercasing leave an `<alpha><space><digit>`-shaped string
unchanged. -/
lemma normalized_fix_alpha_space_digit {L S D : JsString} (hA : AlphaSeg L)
    (hS : SpaceSeg S) (hD : DigitsSeg D) :
    jsToLower (jsTrim (L ++ S ++ D)) = L ++ S ++ D := by
  have hclass : ∀ c ∈ L ++ S ++ D, c < 65 ∨ 90 < c := by
    intro c hc
    rcases List.mem_append.mp hc with hc2 | hc2
    · rcases List.mem_append.mp hc2 with h1 | h1
      · have := alpha_bounds (hA.2 c h1)
        omega
      · have := space_bounds (hS c h1)
        omega
    · have := digit_bounds (hD.2 c hc2)
      omega
  have hhead : ∀ x xs, L ++ S ++ D = x :: xs → jsIsSpace x = false := by
    intro x xs hx
    rcases L with _ | ⟨c, L2⟩
    · exact absurd rfl hA.1
    · rw [List.cons_append, List.cons_append] at hx
      injection hx with h1 _
      exact not_space_of_alpha (hA.2 x (by rw [← h1]; simp))
  have hlast : ∀ x xs, (L ++ S ++ D).reverse = x :: xs → jsIsSpace x = false := by
    intro x xs hx
    rcases hrev : D.reverse with _ | ⟨y, ys⟩
    · exfalso
      have hDnil : D = [] := by
        have := congrArg List.reverse hrev
        simpa using this
      exact hD.1 hDnil
    · have hyD : y ∈ D := by
        have hy : y ∈ D.reverse := by rw [hrev]; simp
        exact List.mem_reverse.mp hy
      rw [List.reverse_append, hrev, List.cons_append] at hx
      injection hx with h1 _
      exact not_space_of_digit (hD.2 x (by rw [← h1]; exact hyD))
  rw [jsTrim_eq_self hhead hlast, jsToLower_eq_self_of_not_upper hclass]

/-- Trimming and lowercasing leave a `<digit><space><alpha>`-shaped string
unchanged. -/
lemma normalized_fix_digit_space_alpha {D S L : JsString} (hD : DigitsSeg D)
    (hS : SpaceSeg S) (hA : AlphaSeg L) :
    jsToLower (jsTrim (D ++ S ++ L)) = D ++ S ++ L := by
  have hclass : ∀ c ∈ D ++ S ++ L, c < 65 ∨ 90 < c := by
    intro c hc
    rcases List.mem_append.mp hc with hc2 | hc2
    · rcases List.mem_append.mp hc2 with h1 | h1
      · have := digit_bounds (hD.2 c h1)
        omega
      · have := space_bounds (hS c h1)
        omega
    · have := alpha_bounds (hA.2 c hc2)
      omega
  have hhead : ∀ x xs, D ++ S ++ L = x :: xs → jsIsSpace x = false := by
    intro x xs hx
    rcases D with _ | ⟨c, D2⟩
    · exact absurd rfl hD.1
    · rw [List.cons_append, List.cons_append] at hx
      injection hx with h1 _
      exact not_space_of_digit (hD.2 x (by rw [← h1]; simp))
  have hlast : ∀ x xs, (D ++ S ++ L).reverse = x :: xs → jsIsSpace x = false := by
    intro x xs hx
    rcases hrev : L.reverse with _ | ⟨y, ys⟩
    · exfalso
      have hLnil : L = [] := by
        have := congrArg List.reverse hrev
        simpa using this
      exact hA.1 hLnil
    · have hyL : y ∈ L := by
        have hy : y ∈ L.reverse := by rw [hrev]; simp
        exact List.mem_reverse.mp hy
      rw [List.reverse_append, hrev, List.cons_append] at hx
      injection hx with h1 _
      exact not_space_of_alpha (hA.2 x (by rw [← h1]; exact hyL))
  rw [jsTrim_eq_self hhead hlast, jsToLower_eq_self_of_not_upper hclass]

/-- On an `<alpha><space><digit>`-shaped value the parser reduces to the
letter-token branch with its exact groups. -/
lemma parseValueChoice_alpha_digit (L S D : JsString) (hA : AlphaSeg L)
    (hS : SpaceSeg S) (hD : DigitsSeg D) (d : MediaType) :
    parseValueChoice (L ++ S ++ D) d =
      match normalizeMediaToken L with
      | none => none
      | some mt => some ⟨digitsToNat D, mt⟩ := by
  have hu := split_alpha_space_digit hA hS hD
  have hvne : L ++ S ++ D ≠ [] := by
    intro hc
    have h1 := List.append_eq_nil.mp hc
    have h2 := List.append_eq_nil.mp h1.1
    exact hA.1 h2.1
  have hnall : ¬ ((L ++ S ++ D).all isRegexDigit = true) := by
    rcases L with _ | ⟨c, L2⟩
    · exact absurd rfl hA.1
    · intro hcontra
      have hcv : c ∈ (c :: L2) ++ S ++ D := by simp
      have hfalse := all_digit_false_of_alpha_mem hcv (hA.2 c (by simp))
      rw [hcontra] at hfalse
      exact absurd hfalse (by decide)
  have hg : (L ++ S ++ D).takeWhile isRegexLowerAlpha ≠ [] ∧
      ((L ++ S ++ D).dropWhile isRegexLowerAlpha).dropWhile jsIsSpace ≠ [] ∧
      (((L ++ S ++ D).dropWhile isRegexLowerAlpha).dropWhile jsIsSpace).all
        isRegexDigit = true := by
    refine ⟨?_, ?_, ?_⟩
    · rw [hu.1]; exact hA.1
    · rw [hu.2]; exact hD.1
    · rw [hu.2]; exact List.all_eq_true.mpr hD.2
  simp only [parseValueChoice, if_neg hvne, if_neg hnall]
  rw [if_pos hg, hu.1, hu.2]

/-- On a `<digit><space><alpha>`-shaped value the parser reduces to the
digits-first branch with its exact groups. -/
lemma parseValueChoice_digit_alpha (D S L : JsString) (hD : DigitsSeg D)
    (hS : SpaceSeg S) (hA : AlphaSeg L) (d : MediaType) :
    parseValueChoice (D ++ S ++ L) d =
      match normalizeMediaToken L with
      | none => none
      | some mt => some ⟨digitsToNat D, mt⟩ := by
  have hu := split_digit_space_alpha hD hS hA
  have hvne : D ++ S ++ L ≠ [] := by
    intro hc
    have h1 := List.append_eq_nil.mp hc
    have h2 := List.append_eq_nil.mp h1.1
    exact hD.1 h2.1
  have hnall : ¬ ((D ++ S ++ L).all isRegexDigit = true) := by
    rcases L with _ | ⟨c, L2⟩
    · exact absurd rfl hA.1
    · intro hcontra
      have hcv : c ∈ D ++ S ++ (c :: L2) := by simp
      have hfalse := all_digit_false_of_alpha_mem hcv (hA.2 c (by simp))
      rw [hcontra] at hfalse
      exact absurd hfalse (by decide)
  have hg1 : ¬ ((D ++ S ++ L).takeWhile isRegexLowerAlpha ≠ [] ∧
      ((D ++ S ++ L).dropWhile isRegexLowerAlpha).dropWhile jsIsSpace ≠ [] ∧
      (((D ++ S ++ L).dropWhile isRegexLowerAlpha).dropWhile jsIsSpace).all
        isRegexDigit = true) := by
    rcases D with _ | ⟨x, D2⟩
    · exact absurd rfl hD.1
    · have hvx : (x :: D2) ++ S ++ L = x :: (D2 ++ (S ++ L)) := by simp
      have hnil := takeWhile_nil_of_head_false hvx
        (not_alpha_of_digit (hD.2 x (by simp)))
      intro hcontra
      exact hcontra.1 hnil
  have hg2 : (D ++ S ++ L).takeWhile isRegexDigit ≠ [] ∧
      ((D ++ S ++ L).dropWhile isRegexDigit).dropWhile jsIsSpace ≠ [] ∧
      (((D ++ S ++ L).dropWhile isRegexDigit).dropWhile jsIsSpace).all
        isRegexLowerAlpha = true := by
    refine ⟨?_, ?_, ?_⟩
    · rw [hu.1]; exact hD.1
    · rw [hu.2]; exact hA.1
    · rw [hu.2]; exact List.all_eq_true.mpr hA.2
  simp only [parseValueChoice, if_neg hvne, if_neg hnall, if_neg hg1]
  rw [if_pos hg2, hu.1, hu.2]

/-- C9: `parseSelectionChoice` lowercases and trims the reply and tolerates
whitespace between the two token groups: any two replies equal after
lowercasing parse identically, and inserting `\s` characters between the
letter token and the digits (in either order) does not change the result. -/
theorem parseSelectionChoice_case_whitespace_insensitive :
    (∀ (t1 t2 : JsString) (d : MediaType), jsToLower t1 = jsToLower t2 →
      parseSelectionChoice t1 d = parseSelectionChoice t2 d) ∧
    (∀ (letters sp digits : JsString) (d : MediaType),
      AlphaSeg letters → SpaceSeg sp → DigitsSeg digits →
      parseSelectionChoice (letters ++ sp ++ digits) d =
        parseSelectionChoice (letters ++ digits) d) ∧
    (∀ (digits sp letters : JsString) (d : MediaType),
      DigitsSeg digits → SpaceSeg sp → AlphaSeg letters →
      parseSelectionChoice (digits ++ sp ++ letters) d =
        parseSelectionChoice (digits ++ letters) d) := by
  refine ⟨?_, ?_, ?_⟩
  · intro t1 t2 d h
    unfold parseSelectionChoice
    rw [← jsTrim_jsToLower_comm, ← jsTrim_jsToLower_comm, h]
  · intro L S D d hA hS hD
    have hSnil : SpaceSeg ([] : JsString) := fun c hc => absurd hc (by simp)
    have f1 := normalized_fix_alpha_space_digit hA hS hD
    have f2 := normalized_fix_alpha_space_digit hA hSnil hD
    have h1 := parseValueChoice_alpha_digit L S D hA hS hD d
    have h2 := parseValueChoice_alpha_digit L [] D hA hSnil hD d
    rw [List.append_nil] at f2 h2
    unfold parseSelectionChoice
    rw [f1, f2, h1, h2]
  · intro D S L d hD hS hA
    have hSnil : SpaceSeg ([] : JsString) := fun c hc => absurd hc (by simp)
    have f1 := normalized_fix_digit_space_alpha hD hS hA
    have f2 := normalized_fix_digit_space_alpha hD hSnil hA
    have h1 := parseValueChoice_digit_alpha D S L hD hS hA d
    have h2 := parseValueChoice_digit_alpha D [] L hD hSnil hA d
    rw [List.append_nil] at f2 h2
    unfold parseSelectionChoice
    rw [f1, f2, h1, h2]

/-- Witness for C9: `A3` parses like `a3`, `Audio 3` differs from
`audio3` only in case and interior whitespace and `audio 3` parses like
`audio3`, `3 V` similarly via `3 v` and `3v`. -/
theorem parseSelectionChoice_case_whitespace_insensitive_witness :
    (jsToLower (codes ("A3")) = jsToLower (codes ("a3")) ∧
      parseSelectionChoice (codes ("A3")) MediaType.audio =
        parseSelectionChoice (codes ("a3")) MediaType.audio) ∧
    (parseSelectionChoice (codes ("audio 3")) MediaType.audio =
      parseSelectionChoice (codes ("audio3")) MediaType.audio) ∧
    (parseSelectionChoice (codes ("3 v")) MediaType.audio =
      parseSelectionChoice (codes ("3v")) MediaType.audio) :=
  ⟨⟨by decide,
    parseSelectionChoice_case_whitespace_insensitive.1
      (codes ("A3")) (codes ("a3")) MediaType.audio (by decide)⟩,
   parseSelectionChoice_case_whitespace_insensitive.2.1
     (codes ("audio")) (codes (" ")) (codes ("3")) MediaType.audio
     (by decide) (by decide) (by decide),
   parseSelectionChoice_case_whitespace_insensitive.2.2
     (codes ("3")) (codes (" ")) (codes ("v")) MediaType.audio
     (by decide) (by decide) (by decide)⟩


end MusicBot
